import Mathlib

/-!
Verification of the capture-dedup-enrich-sync core and master-data governance
layer of the notion-second-brain repository, shallowly embedded in Lean.

Text is modelled at the Python level: a Python `str` is a sequence of Unicode
code points, embedded as `String`/`List Char`; `bytes` are `List Nat` with
each element < 256.  Machine integers do not occur in the source (Python has
arbitrary-precision integers), so `Nat`/`Int` are exact; the 32-bit modular
arithmetic of SHA-256 is made explicit with `% 2^32`.
-/

set_option maxRecDepth 10000

namespace NSB

/-! ## SHA-256 (`hashlib.sha256` as used by `app/core/hashing.py`)

A complete executable implementation of FIPS 180-4 SHA-256 over byte lists,
with 32-bit words represented as `Nat` reduced mod `2^32`. -/

def M32 : Nat := 4294967296

def rotr (n x : Nat) : Nat := ((x >>> n) ||| (x <<< (32 - n))) % M32

def shaCh (e f g : Nat) : Nat := ((e &&& f) ^^^ ((e ^^^ (M32 - 1)) &&& g)) % M32

def shaMaj (a b c : Nat) : Nat := ((a &&& b) ^^^ (a &&& c) ^^^ (b &&& c)) % M32

def bigSigma0 (a : Nat) : Nat := (rotr 2 a) ^^^ (rotr 13 a) ^^^ (rotr 22 a)

def bigSigma1 (e : Nat) : Nat := (rotr 6 e) ^^^ (rotr 11 e) ^^^ (rotr 25 e)

def smallSigma0 (x : Nat) : Nat := (rotr 7 x) ^^^ (rotr 18 x) ^^^ (x >>> 3)

def smallSigma1 (x : Nat) : Nat := (rotr 17 x) ^^^ (rotr 19 x) ^^^ (x >>> 10)

def sha256K : List Nat :=
  [1116352408, 1899447441, 3049323471, 3921009573,
   961987163, 1508970993, 2453635748, 2870763221,
   3624381080, 310598401, 607225278, 1426881987,
   1925078388, 2162078206, 2614888103, 3248222580,
   3835390401, 4022224774, 264347078, 604807628,
   770255983, 1249150122, 1555081692, 1996064986,
   2554220882, 2821834349, 2952996808, 3210313671,
   3336571891, 3584528711, 113926993, 338241895,
   666307205, 773529912, 1294757372, 1396182291,
   1695183700, 1986661051, 2177026350, 2456956037,
   2730485921, 2820302411, 3259730800, 3345764771,
   3516065817, 3600352804, 4094571909, 275423344,
   430227734, 506948616, 659060556, 883997877,
   958139571, 1322822218, 1537002063, 1747873779,
   1955562222, 2024104815, 2227730452, 2361852424,
   2428436474, 2756734187, 3204031479, 3329325298]

structure Digest where
  h0 : Nat
  h1 : Nat
  h2 : Nat
  h3 : Nat
  h4 : Nat
  h5 : Nat
  h6 : Nat
  h7 : Nat
deriving Repr, DecidableEq

def sha256InitD : Digest :=
  ⟨1779033703, 3144134277, 1013904242, 2773480762,
   1359893119, 2600822924, 528734635, 1541459225⟩

def be64 (n : Nat) : List Nat :=
  [(n >>> 56) % 256, (n >>> 48) % 256, (n >>> 40) % 256, (n >>> 32) % 256,
   (n >>> 24) % 256, (n >>> 16) % 256, (n >>> 8) % 256, n % 256]

/-- Append the 0x80 byte, zero padding to 56 mod 64, and the 64-bit
big-endian bit length. -/
def sha256Pad (msg : List Nat) : List Nat :=
  let L := msg.length
  let k := (119 - L % 64) % 64
  msg ++ 128 :: (List.replicate k 0 ++ be64 (8 * L))

/-- Split into 64-byte blocks.  Structural recursion on a fuel argument so the
definition reduces in the kernel; `fuel = l.length` always suffices because
every step consumes at least one element of a non-empty list. -/
def chunks64Go : Nat → List Nat → List (List Nat)
  | 0, _ => []
  | _, [] => []
  | fuel + 1, l => l.take 64 :: chunks64Go fuel (l.drop 64)

def chunks64 (l : List Nat) : List (List Nat) := chunks64Go l.length l

/-- Big-endian 32-bit words from a byte list. -/
def beWords : List Nat → List Nat
  | a :: b :: c :: d :: rest => (((a * 256 + b) * 256 + c) * 256 + d) :: beWords rest
  | _ => []

/-- Extend the 16 message words to the 64-entry message schedule. -/
def sha256Extend (w : List Nat) : List Nat :=
  (List.range 48).foldl
    (fun acc j =>
      let i := j + 16
      acc ++ [(smallSigma1 (acc.getD (i - 2) 0) + acc.getD (i - 7) 0
               + smallSigma0 (acc.getD (i - 15) 0) + acc.getD (i - 16) 0) % M32])
    w

def sha256Compress (h : Digest) (chunk : List Nat) : Digest :=
  let w := sha256Extend (beWords chunk)
  let step := fun (s : Nat × Nat × Nat × Nat × Nat × Nat × Nat × Nat) (i : Nat) =>
    let (a, b, c, d, e, f, g, hh) := s
    let t1 := (hh + bigSigma1 e + shaCh e f g + sha256K.getD i 0 + w.getD i 0) % M32
    let t2 := (bigSigma0 a + shaMaj a b c) % M32
    ((t1 + t2) % M32, a, b, c, (d + t1) % M32, e, f, g)
  let r := (List.range 64).foldl step (h.h0, h.h1, h.h2, h.h3, h.h4, h.h5, h.h6, h.h7)
  ⟨(h.h0 + r.1) % M32, (h.h1 + r.2.1) % M32, (h.h2 + r.2.2.1) % M32,
   (h.h3 + r.2.2.2.1) % M32, (h.h4 + r.2.2.2.2.1) % M32, (h.h5 + r.2.2.2.2.2.1) % M32,
   (h.h6 + r.2.2.2.2.2.2.1) % M32, (h.h7 + r.2.2.2.2.2.2.2) % M32⟩

def sha256Digest (msg : List Nat) : Digest :=
  (chunks64 (sha256Pad msg)).foldl sha256Compress sha256InitD

def hexDigit (n : Nat) : Char := ("0123456789abcdef".data).getD n '0'

def wordHex (w : Nat) : List Char :=
  [hexDigit ((w >>> 28) % 16), hexDigit ((w >>> 24) % 16), hexDigit ((w >>> 20) % 16),
   hexDigit ((w >>> 16) % 16), hexDigit ((w >>> 12) % 16), hexDigit ((w >>> 8) % 16),
   hexDigit ((w >>> 4) % 16), hexDigit (w % 16)]

/-- `hashlib.sha256(bytes).hexdigest()`: the 64-character lowercase hex digest. -/
def sha256hex (msg : List Nat) : String :=
  let d := sha256Digest msg
  ⟨wordHex d.h0 ++ wordHex d.h1 ++ wordHex d.h2 ++ wordHex d.h3 ++
   wordHex d.h4 ++ wordHex d.h5 ++ wordHex d.h6 ++ wordHex d.h7⟩

/-- UTF-8 encoding of one code point (`str.encode("utf-8")`, per character). -/
def utf8Char (c : Char) : List Nat :=
  let n := c.toNat
  if n < 128 then [n]
  else if n < 2048 then [192 + n / 64, 128 + n % 64]
  else if n < 65536 then [224 + n / 4096, 128 + (n / 64) % 64, 128 + n % 64]
  else [240 + n / 262144, 128 + (n / 4096) % 64, 128 + (n / 64) % 64, 128 + n % 64]

/-- `str.encode("utf-8")` over a whole string. -/
def utf8Encode (s : String) : List Nat := (s.data.map utf8Char).flatten

/-- `app/core/hashing.py::compute_source_id`: SHA-256 hex digest of the UTF-8
bytes of `f"{normalized_text}||{source}"`. -/
def compute_source_id (normalized_text source : String) : String :=
  sha256hex (utf8Encode (normalized_text ++ "||" ++ source))

/-! ## Normalizer (`app/core/normalizer.py`)

Python `str` values are embedded as `List Char` (sequences of code points)
with a `String` wrapper at the API boundary.  `str.strip()` with no argument
strips whitespace; the characters relevant here are the ASCII whitespace
characters handled below (the source never feeds exotic Unicode spaces). -/

def isPySpace (c : Char) : Bool :=
  c = ' ' || c = '\t' || c = '\n' || c = '\r' || c = Char.ofNat 11 || c = Char.ofNat 12

/-- Drop matching characters from the end of a list. -/
def dropEndWhile (p : Char → Bool) (l : List Char) : List Char :=
  (l.reverse.dropWhile p).reverse

/-- Python `str.strip(chars)`: drop from both ends. -/
def stripWith (p : Char → Bool) (l : List Char) : List Char :=
  dropEndWhile p (l.dropWhile p)

/-- Python `str.strip()` on a code-point list. -/
def pyStrip (l : List Char) : List Char := stripWith isPySpace l

/-- Python `str.strip()` on a `String`. -/
def pyStripS (s : String) : String := ⟨pyStrip s.data⟩

/-- `text.replace("\r\n", "\n")`: left-to-right, non-overlapping. -/
def replaceCRLF : List Char → List Char
  | '\r' :: '\n' :: rest => '\n' :: replaceCRLF rest
  | c :: rest => c :: replaceCRLF rest
  | [] => []

/-- `text.replace("\r", "\n")`. -/
def replaceCR (l : List Char) : List Char :=
  l.map fun c => if c = '\r' then '\n' else c

/-- `normalizer.py::normalize_newlines`. -/
def normalize_newlines (l : List Char) : List Char :=
  pyStrip (replaceCR (replaceCRLF l))

/-- Python `str.split(sep)` for a one-character separator: the accumulator
holds the current piece reversed.  `"".split(c) = [""]`. -/
def splitGo (sep : Char) (cur : List Char) : List Char → List (List Char)
  | [] => [cur.reverse]
  | c :: rest =>
    if c = sep then cur.reverse :: splitGo sep [] rest
    else splitGo sep (c :: cur) rest

def splitOnChar (sep : Char) (l : List Char) : List (List Char) := splitGo sep [] l

/-- Python `sep.join(pieces)` for a one-character separator. -/
def joinWith (sep : Char) : List (List Char) → List Char
  | [] => []
  | [x] => x
  | x :: xs => x ++ sep :: joinWith sep xs

/-- `re.sub(r"[ \t]+", " ", line)`: each maximal run of spaces/tabs becomes
one space.  The Boolean flag records whether the previous character belonged
to a run (structural recursion in place of the regex engine). -/
def collapseRunsGo : Bool → List Char → List Char
  | _, [] => []
  | inRun, c :: rest =>
    if c = ' ' || c = '\t' then
      if inRun then collapseRunsGo true rest
      else ' ' :: collapseRunsGo true rest
    else c :: collapseRunsGo false rest

def collapseRuns (l : List Char) : List Char := collapseRunsGo false l

/-- `normalizer.py::collapse_spaces`: per line, collapse space/tab runs and
strip the line; rejoin with newlines; strip the whole text. -/
def collapse_spaces (l : List Char) : List Char :=
  pyStrip (joinWith '\n' ((splitOnChar '\n' l).map fun line => pyStrip (collapseRuns line)))

def signatureMarkers : List (List Char) :=
  ["saludos".data, "atentamente".data, "best regards".data, "kind regards".data, "--".data]

/-- Python `str.lower()`; ASCII case mapping (the markers are ASCII). -/
def pyLower (l : List Char) : List Char := l.map Char.toLower

/-- `candidate.startswith(marker)` for some fixed signature marker, where
`candidate = lines[i].strip().lower()`. -/
def markerMatches (line : List Char) : Bool :=
  signatureMarkers.any fun m => m.isPrefixOf (pyLower (pyStrip line))

/-- The `for i in range(len(lines) - 1, -1, -1)` scan of
`_strip_signature_conservative`: `k` is one more than the next index to
examine; a marker line is removed only when its index is beyond
`max(2, len(lines) // 3)`, otherwise the scan continues upward. -/
def stripSigGo (orig : List Char) (lines : List (List Char)) : Nat → List Char
  | 0 => orig
  | k + 1 =>
    if markerMatches (lines.getD k []) then
      if k > max 2 (lines.length / 3) then pyStrip (joinWith '\n' (lines.take k))
      else stripSigGo orig lines k
    else stripSigGo orig lines k

/-- `normalizer.py::_strip_signature_conservative`. -/
def strip_signature_conservative (text : List Char) : List Char :=
  let lines := splitOnChar '\n' text
  stripSigGo text lines lines.length

/-- `normalizer.py::normalize_text` on code-point lists. -/
def normalizeTextData (raw : List Char) (source : String) : List Char :=
  let t1 := normalize_newlines raw
  let t2 := collapse_spaces t1
  if source = "email_pasted" then collapse_spaces (strip_signature_conservative t2)
  else t2

/-- `normalizer.py::normalize_text`. -/
def normalize_text (raw_text source : String) : String :=
  ⟨normalizeTextData raw_text.data source⟩

/-! ## Enrichment normalizer (`app/core/processor.py`)

The loosely-typed JSON payload is embedded as `PyVal`; the standard-library
collaborators `ast.literal_eval` and `json.loads` are oracles
(`String → Option PyVal`, `none` = the call raised), exactly like the network
collaborators.  `str()`/`repr()` are implemented for the values that occur
(repr is exact for strings without quotes or escapes). -/

inductive PyVal where
  | pyNone
  | bool (b : Bool)
  | int (n : Int)
  | str (s : String)
  | list (xs : List PyVal)
  | dict (kvs : List (String × PyVal))
deriving Inhabited

/-- Python truthiness for the embedded values. -/
def pyTruthy : PyVal → Bool
  | .pyNone => false
  | .bool b => b
  | .int n => n != 0
  | .str s => s != ""
  | .list xs => !xs.isEmpty
  | .dict kvs => !kvs.isEmpty

mutual

def pyRepr : PyVal → String
  | .pyNone => "None"
  | .bool b => if b then "True" else "False"
  | .int n => toString n
  | .str s => "'" ++ s ++ "'"
  | .list xs => "[" ++ pyReprList xs ++ "]"
  | .dict kvs => "\x7b" ++ pyReprDict kvs ++ "\x7d"

def pyReprList : List PyVal → String
  | [] => ""
  | [x] => pyRepr x
  | x :: xs => pyRepr x ++ ", " ++ pyReprList xs

def pyReprDict : List (String × PyVal) → String
  | [] => ""
  | [kv] => "'" ++ kv.1 ++ "': " ++ pyRepr kv.2
  | kv :: kvs => "'" ++ kv.1 ++ "': " ++ pyRepr kv.2 ++ ", " ++ pyReprDict kvs

end

/-- Python `str(v)`. -/
def pyToStr : PyVal → String
  | .str s => s
  | v => pyRepr v

/-- Python `str(v or "")`: falsy values become the empty string. -/
def pyStrOr (v : PyVal) : String :=
  if pyTruthy v then pyToStr v else ""

/-- `d.get(k, default)` (the embedded dicts have distinct keys). -/
def dictGet (kvs : List (String × PyVal)) (k : String) (dflt : PyVal) : PyVal :=
  match kvs.lookup k with
  | some v => v
  | none => dflt

/-- `chunk.strip(" -•\t")`. -/
def isBulletPad (c : Char) : Bool :=
  c = ' ' || c = '-' || c = '•' || c = '\t'

/-- The plain-string branch of the `_normalize_actions` loop:
`value.replace("\r", "\n").split("\n")`, strip bullet padding, keep the
non-empty fragments. -/
def actionChunks (s : String) : List String :=
  ((splitOnChar '\n' (replaceCR s.data)).map (stripWith isBulletPad)).filterMap
    fun c => if c.isEmpty then none else some ⟨c⟩

/-- The mapping branch of the `_normalize_actions` loop: description (tagged
with non-empty `tipo_accion` entries when present), then non-empty subtasks. -/
def dictElemActions (kvs : List (String × PyVal)) : List String :=
  let description := pyStripS (pyStrOr (dictGet kvs "descripcion" (.str "")))
  let action_types :=
    match dictGet kvs "tipo_accion" (.list []) with
    | .list items => (items.map fun it => pyStripS (pyToStr it)).filter (· ≠ "")
    | _ => []
  let descPart :=
    if description ≠ "" then
      if action_types ≠ [] then
        [description ++ " [Tipo: " ++ String.intercalate ", " action_types ++ "]"]
      else [description]
    else []
  let subPart :=
    match dictGet kvs "subtareas" (.list []) with
    | .list subs => (subs.map fun st => pyStripS (pyStrOr st)).filter (· ≠ "")
    | _ => []
  descPart ++ subPart

/-- One iteration of the `for value in raw_actions` loop: mappings and plain
strings contribute actions; any other element is skipped
(`if not isinstance(value, str): continue`). -/
def elemActions : PyVal → List String
  | .dict kvs => dictElemActions kvs
  | .str s => actionChunks s
  | _ => []

/-- `processor.py::_normalize_actions`.  A top-level string is first fed to
`ast.literal_eval` (oracle; `none` = raised), the original being wrapped in a
one-element list on failure; `None` yields `[]`; any other non-list is
replaced by `[str(value)]`; then the per-element loop runs. -/
def normalize_actions (literalEval : String → Option PyVal) (raw0 : PyVal) : List String :=
  let raw1 :=
    match raw0 with
    | .str s =>
      match literalEval s with
      | some v => v
      | none => .list [.str s]
    | v => v
  match raw1 with
  | .pyNone => []
  | v =>
    let elems :=
      match v with
      | .list xs => xs
      | w => [.str (pyToStr w)]
    elems.foldl (fun acc value => acc ++ elemActions value) []

structure ProcessedNote where
  resumen : String
  acciones : List String
  tipo_sugerido : String
  prioridad_sugerida : String
deriving DecidableEq

/-- `processor.py::_empty_processed_note`. -/
def emptyProcessedNote : ProcessedNote := ⟨"", [], "", ""⟩

def openBrace : Char := Char.ofNat 123

def closeBrace : Char := Char.ofNat 125

/-- `content.find("{")` / `content.rfind("}")` as optional indices. -/
def strFind (l : List Char) (c : Char) : Option Nat := l.findIdx? (· = c)

def strRfind (l : List Char) (c : Char) : Option Nat :=
  match l.reverse.findIdx? (· = c) with
  | some j => some (l.length - 1 - j)
  | none => none

/-- `processor.py::_extract_json_object`: strict parse of the stripped blob,
else parse the substring between the first opening and last closing brace;
`none` = the original or re-raised `JSONDecodeError` propagates. -/
def extract_json_object (jsonLoads : String → Option PyVal) (content0 : String) :
    Option PyVal :=
  let content := pyStripS content0
  match jsonLoads content with
  | some v => some v
  | none =>
    match strFind content.data openBrace, strRfind content.data closeBrace with
    | some s, some e =>
      if s ≥ e then none
      else jsonLoads ⟨(content.data.drop s).take (e + 1 - s)⟩
    | _, _ => none

/-- `processor.py::process_text`.  `complete` is the upstream
text-understanding call (client construction plus `responses.create` on the
first 4000 characters; `Except.error` = any exception inside the `try`).
Everything inside the `try` that fails yields the neutral note; the
`payload.get` field accesses run *outside* the `try`, so a payload that
parsed to a non-dict raises `AttributeError` to the caller. -/
def process_text (complete : String → Except String String)
    (jsonLoads literalEval : String → Option PyVal) (text : String) :
    Except String ProcessedNote :=
  if pyStripS text = "" then .ok emptyProcessedNote
  else
    match complete ⟨text.data.take 4000⟩ with
    | .error _ => .ok emptyProcessedNote
    | .ok output =>
      match extract_json_object jsonLoads output with
      | none => .ok emptyProcessedNote
      | some (.dict kvs) =>
        .ok { resumen := pyStripS (pyStrOr (dictGet kvs "resumen" (.str "")))
              acciones := normalize_actions literalEval (dictGet kvs "acciones" (.list []))
              tipo_sugerido := pyStripS (pyStrOr (dictGet kvs "tipo_sugerido" (.str "")))
              prioridad_sugerida := pyStripS (pyStrOr (dictGet kvs "prioridad_sugerida" (.str ""))) }
      | some _ => .error "AttributeError: payload has no attribute get"

/-! ## Data model (`app/core/models.py`, `app/persistence/db.py`)

Timestamps that the code only ever compares (`next_retry_at` against "now",
both second-resolution ISO strings of the same fixed format, whose
lexicographic order is chronological order) are embedded as `Int` seconds;
timestamps that are merely stored (`created_at`) stay `String`. -/

inductive NoteStatus where
  | pendiente
  | enviado
  | error
deriving DecidableEq

structure NoteRow where
  id : Nat
  created_at : String
  source : String
  source_id : String
  title : String
  raw_text : String
  area : String
  tipo : String
  estado : String
  prioridad : String
  fecha : String
  resumen : String
  acciones : String
  status : NoteStatus
  notion_page_id : Option String
  last_error : Option String
  attempts : Nat
  next_retry_at : Option Int
deriving DecidableEq

structure ActionRow where
  id : Nat
  note_id : Nat
  description : String
  area : String
  status : String
  created_at : String
  completed_at : Option String
  notion_page_id : Option String
deriving DecidableEq

structure NoteCreateRequest where
  raw_text : String
  source : String
  area : String
  tipo : String
  estado : String
  prioridad : String
  fecha : String
  title : String := ""
  resumen : String := ""
  acciones : String := ""
deriving DecidableEq

/-- `app/core/models.py::AppSettings` with its dataclass defaults. -/
structure AppSettings where
  notion_token : String := ""
  notion_database_id : String := ""
  default_area : String := ""
  default_tipo : String := ""
  default_estado : String := "Pendiente"
  default_prioridad : String := "Media"
  prop_title : String := "Actividad"
  prop_area : String := "Area"
  prop_tipo : String := "Tipo"
  prop_estado : String := "Estado"
  prop_fecha : String := "Fecha"
  prop_prioridad : String := "Prioridad"
  max_attempts : Int := 5
  retry_delay_seconds : Int := 60
deriving DecidableEq

/-! ## Note repository (`app/persistence/repositories.py::NoteRepository`)

The `notes_local` table is a list of rows; `id` is the AUTOINCREMENT primary
key, so rows have pairwise distinct ids and appear in ascending-id order as
inserted. -/

/-- `NoteRepository.source_exists`. -/
def source_exists (notes : List NoteRow) (source_id : String) : Bool :=
  notes.any fun r => r.source_id == source_id

/-- `NoteRepository.mark_sent`: status `enviado`, remote page id recorded,
`last_error` set to NULL; no other column is touched. -/
def mark_sent (notes : List NoteRow) (note_id : Nat) (notion_page_id : String) :
    List NoteRow :=
  notes.map fun r =>
    if r.id = note_id then
      { r with status := .enviado, notion_page_id := some notion_page_id,
               last_error := none }
    else r

/-- `NoteRepository.mark_error`: reads the row's `attempts`, then sets status
`error`, the message truncated to 1000 characters, `attempts + 1`, and
`next_retry_at = now + retry_after_seconds` (ids are unique, so reading the
matched row's counter and updating it in place coincide). -/
def mark_error (notes : List NoteRow) (note_id : Nat) (error_msg : String)
    (retry_after_seconds : Int) (now : Int) : List NoteRow :=
  notes.map fun r =>
    if r.id = note_id then
      { r with status := .error, last_error := some ⟨error_msg.data.take 1000⟩,
               attempts := r.attempts + 1,
               next_retry_at := some (now + retry_after_seconds) }
    else r

/-- The WHERE clause of `NoteRepository.list_retryable`:
`status IN (pendiente, error) AND (next_retry_at IS NULL OR next_retry_at <= now)`. -/
def retryablePred (now : Int) (r : NoteRow) : Bool :=
  (r.status = NoteStatus.pendiente || r.status = NoteStatus.error) &&
    (match r.next_retry_at with
     | none => true
     | some t => t ≤ now)

def insertById (r : NoteRow) : List NoteRow → List NoteRow
  | [] => [r]
  | x :: xs => if r.id ≤ x.id then r :: x :: xs else x :: insertById r xs

/-- `ORDER BY id ASC` (insertion sort; stable, total). -/
def sortById : List NoteRow → List NoteRow
  | [] => []
  | x :: xs => insertById x (sortById xs)

/-- `NoteRepository.list_retryable`. -/
def list_retryable (notes : List NoteRow) (now : Int) : List NoteRow :=
  sortById (notes.filter (retryablePred now))

/-! ## Masters repository (`app/persistence/masters_repository.py`) -/

structure MasterRow where
  id : Nat
  category : String
  value : String
  active : Bool
  system_locked : Bool
deriving DecidableEq

/-- `MastersRepository.is_locked`: the looked-up row's `system_locked`, false
when the row is missing. -/
def is_locked (masters : List MasterRow) (category value : String) : Bool :=
  match masters.find? (fun r => r.category == category && r.value == value) with
  | some r => r.system_locked
  | none => false

/-- `MastersRepository.deactivate_master`: `UPDATE masters SET active = 0
WHERE category = ? AND value = ? AND system_locked = 0`. -/
def repo_deactivate_master (masters : List MasterRow) (category value : String) :
    List MasterRow :=
  masters.map fun r =>
    if r.category == category && r.value == value && !r.system_locked then
      { r with active := false }
    else r

/-! ## Notion client (`app/integrations/notion_client.py`)

The remote database behind `database_id` is embedded as a list of pages, a
page being its select-property assignments.  `count_open_pages_for_master`
posts a query whose filter is `property = value AND estado ≠ finalizado` and
sums result counts across pagination; the embedding applies that filter to
the page list directly (the HTTP transport and cursor loop carry no further
logic; a network or 4xx/5xx failure raises `NotionError`, a path the
governance claims never reach on the counted branch). -/

def NotionPage : Type := List (String × String)

def pageProp (pg : NotionPage) (prop : String) : Option String :=
  List.lookup prop pg

/-- `NotionClient.count_open_pages_for_master`. -/
def count_open_pages_for_master (pages : List NotionPage)
    (category_property value estado_property estado_finalizado : String) : Nat :=
  (pages.filter fun pg =>
      pageProp pg category_property == some value &&
      pageProp pg estado_property != some estado_finalizado).length

/-! ## Settings repository (`app/persistence/repositories.py::SettingsRepository`)

The `settings` table is a key–value list with TEXT values.  A Python runtime
field value is a `str` or an `int` (`PyScalar`).  Crucially, `models.py`
begins with `from __future__ import annotations`, so every dataclass
annotation — hence `AppSettings.__dataclass_fields__[name].type` — is the
*string* `"int"` or `"str"`, not the class; the identity tests
`field_type is int` / `field_type is str` in `load` compare that string
object against a class and are therefore always false. -/

inductive PyScalar where
  | s (v : String)
  | i (n : Int)
deriving DecidableEq

/-- Python `str(value)` on a field value (`save` stores this TEXT). -/
def pyScalarStr : PyScalar → String
  | .s v => v
  | .i n => toString n

/-- The dataclass fields of `AppSettings`, in declaration order, with the
runtime values of a given settings object. -/
def appSettingsFieldValues (s : AppSettings) : List (String × PyScalar) :=
  [("notion_token", .s s.notion_token),
   ("notion_database_id", .s s.notion_database_id),
   ("default_area", .s s.default_area),
   ("default_tipo", .s s.default_tipo),
   ("default_estado", .s s.default_estado),
   ("default_prioridad", .s s.default_prioridad),
   ("prop_title", .s s.prop_title),
   ("prop_area", .s s.prop_area),
   ("prop_tipo", .s s.prop_tipo),
   ("prop_estado", .s s.prop_estado),
   ("prop_fecha", .s s.prop_fecha),
   ("prop_prioridad", .s s.prop_prioridad),
   ("max_attempts", .i s.max_attempts),
   ("retry_delay_seconds", .i s.retry_delay_seconds)]

/-- The dataclass defaults (`AppSettings()`), as runtime field values. -/
def appSettingsDefaults : List (String × PyScalar) :=
  appSettingsFieldValues {}

def intFields : List String := ["max_attempts", "retry_delay_seconds"]

/-- The runtime objects compared by `field_type is int` / `is str`:
the classes `int`/`str`, or (post-PEP-563) the annotation string. -/
inductive PyAnnot where
  | clsInt
  | clsStr
  | strLit (s : String)

/-- Python `is` between an annotation object and one of the classes. -/
def pyIsCls : PyAnnot → PyAnnot → Bool
  | .clsInt, .clsInt => true
  | .clsStr, .clsStr => true
  | _, _ => false

/-- `AppSettings.__dataclass_fields__[name].type` under
`from __future__ import annotations`: the annotation *string*. -/
def fieldAnnot (name : String) : PyAnnot :=
  .strLit (if intFields.contains name then "int" else "str")

/-- `int(raw)` (reached only if the `is int` branch were live). -/
def pyIntOfString (raw : String) : Int := raw.toInt?.getD 0

/-- `SettingsRepository.set_setting`: key–value upsert. -/
def set_setting (store : List (String × String)) (key value : String) :
    List (String × String) :=
  if store.any (fun kv => kv.1 == key) then
    store.map fun kv => if kv.1 == key then (key, value) else kv
  else store ++ [(key, value)]

/-- `SettingsRepository.save`: upsert `str(value)` for every dataclass field. -/
def settings_save (store : List (String × String)) (s : AppSettings) :
    List (String × String) :=
  (appSettingsFieldValues s).foldl (fun st kv => set_setting st kv.1 (pyScalarStr kv.2)) store

/-- `SettingsRepository.load`: start from the defaults and overwrite each
field present in the store, casting by the (dead, see above) annotation
tests; the sqlite TEXT value is a `str`. -/
def settings_load (store : List (String × String)) : List (String × PyScalar) :=
  appSettingsDefaults.map fun nd =>
    match List.lookup nd.1 store with
    | none => nd
    | some raw =>
      let ft := fieldAnnot nd.1
      let casted : PyScalar :=
        if pyIsCls ft .clsInt then .i (pyIntOfString raw)
        else if pyIsCls ft .clsStr then .s raw
        else .s raw
      (nd.1, casted)

/-! ## Service layer (`app/core/service.py::NoteService`) -/

/-- `NoteService.MASTER_TO_NOTION_PROP` followed by the
`_resolve_notion_property_name` dispatch: a `prop_*` key reads the settings
field of that name, any other mapped key is returned verbatim, an unmapped
category gives `None`. -/
def resolve_notion_property_name (category : String) (s : AppSettings) :
    Option String :=
  if category = "Area" then some s.prop_area
  else if category = "Tipo" then some s.prop_tipo
  else if category = "Prioridad" then some s.prop_prioridad
  else if category = "Origen" then some "Origen"
  else none

def lockedMessage (value : String) : String :=
  "'" ++ value ++ "' está bloqueado por el sistema y no puede desactivarse."

def openPagesMessage (value : String) (open_count : Nat) : String :=
  "No se puede desactivar '" ++ value ++ "' porque existe en " ++
    toString open_count ++ " página(s) de Notion con Estado distinto de 'Finalizado'."

structure DeactivateResult where
  err : Option String
  masters : List MasterRow
  remoteQueried : Bool
deriving DecidableEq

/-- `NoteService.deactivate_master`.  `err = some msg` is the raised
`ValueError`; `remoteQueried` records whether
`count_open_pages_for_master` was invoked. -/
def service_deactivate_master (pages : List NotionPage) (masters : List MasterRow)
    (settings : AppSettings) (category value : String) : DeactivateResult :=
  if is_locked masters category value then
    ⟨some (lockedMessage value), masters, false⟩
  else if pyStripS settings.notion_database_id = "" || pyStripS settings.notion_token = "" then
    ⟨none, repo_deactivate_master masters category value, false⟩
  else
    match resolve_notion_property_name category settings with
    | none => ⟨none, repo_deactivate_master masters category value, false⟩
    | some p =>
      if p = "" then ⟨none, repo_deactivate_master masters category value, false⟩
      else
        let open_count :=
          count_open_pages_for_master pages p value settings.prop_estado "Finalizado"
        if open_count > 0 then
          ⟨some (openPagesMessage value open_count), masters, true⟩
        else
          ⟨none, repo_deactivate_master masters category value, true⟩

/-- The local store touched by `create_note`: the two tables and their
AUTOINCREMENT counters. -/
structure Db where
  notes : List NoteRow
  actions : List ActionRow
  nextNoteId : Nat
  nextActionId : Nat
deriving DecidableEq

def dupMessage : String := "Nota duplicada detectada, no se guardó nuevamente."

def savedMessage : String := "Nota guardada localmente."

structure CreateResult where
  note_id : Option Nat
  message : String
  db : Db
  enrichmentCalled : Bool
deriving DecidableEq

/-- `NoteService.create_note`.  `enrich` is `process_text` as one oracle (the
successfully returned `ProcessedNote`; its internal failure handling is
verified separately); `created_at` stands for `AppSettings.now_iso()` and the
action rows' `utcnow` stamp.  `enrichmentCalled` records whether the
enrichment call was reached.  `processed.acciones` is the dataclass's
`list[str]`, so the `isinstance(..., list)` guards take their list branch. -/
def create_note (enrich : String → ProcessedNote) (db : Db)
    (req : NoteCreateRequest) (created_at : String) : CreateResult :=
  let normalized := normalize_text req.raw_text req.source
  let source_id := compute_source_id normalized req.source
  if source_exists db.notes source_id then
    ⟨none, dupMessage, db, false⟩
  else
    let title0 := if req.title ≠ "" then pyStripS req.title else ""
    let title :=
      if title0 = "" then
        let firstLine : String := ⟨((splitOnChar '\n' normalized.data).headD []).take 120⟩
        if firstLine = "" then "Sin título" else firstLine
      else title0
    let processed := enrich normalized
    let final_tipo :=
      if pyStripS req.tipo ≠ "" then pyStripS req.tipo else processed.tipo_sugerido
    let final_prioridad :=
      if pyStripS req.prioridad ≠ "" then pyStripS req.prioridad
      else processed.prioridad_sugerida
    let descs := (processed.acciones.map pyStripS).filter (· ≠ "")
    let acciones_text := String.intercalate "\n" descs
    let note : NoteRow :=
      { id := db.nextNoteId, created_at := created_at, source := req.source,
        source_id := source_id, title := title, raw_text := req.raw_text,
        area := req.area, tipo := final_tipo, estado := req.estado,
        prioridad := final_prioridad, fecha := req.fecha,
        resumen := processed.resumen, acciones := acciones_text,
        status := .pendiente, notion_page_id := none, last_error := none,
        attempts := 0, next_retry_at := none }
    let inserted := descs.foldl
      (fun (st : List ActionRow × Nat) d =>
        (st.1 ++ [{ id := st.2, note_id := db.nextNoteId, description := d,
                    area := req.area, status := "pendiente",
                    created_at := created_at, completed_at := none,
                    notion_page_id := none }],
         st.2 + 1))
      (db.actions, db.nextActionId)
    ⟨some db.nextNoteId, savedMessage,
     { notes := db.notes ++ [note], actions := inserted.1,
       nextNoteId := db.nextNoteId + 1, nextActionId := inserted.2 },
     true⟩

/-! ## Auxiliary predicates for the normalizer proofs -/

def isSpaceTab (c : Char) : Bool := c = ' ' || c = '\t'

/-- Fixed points of `collapseRuns`: no tab and no two adjacent space/tab
characters. -/
def noRuns : List Char → Bool
  | [] => true
  | [c] => !(c = '\t')
  | c1 :: c2 :: rest =>
    !(c1 = '\t') && !(isSpaceTab c1 && isSpaceTab c2) && noRuns (c2 :: rest)

/-- Both ends free of Python whitespace. -/
def stripped (l : List Char) : Bool :=
  (match l.head? with
   | some c => !isPySpace c
   | none => true) &&
  (match l.getLast? with
   | some c => !isPySpace c
   | none => true)

/-- No newline character. -/
def noNl (l : List Char) : Bool := l.all fun c => !(c = '\n')

/-- Drop trailing empty pieces. -/
def trimEndEmpties (ps : List (List Char)) : List (List Char) :=
  (ps.reverse.dropWhile List.isEmpty).reverse

/-- A list element that is neither a mapping nor a plain string — skipped by
the `_normalize_actions` loop. -/
def droppedElem : PyVal → Bool
  | .dict _ => false
  | .str _ => false
  | _ => true

/-! ## Concrete fixtures for witnesses and counterexamples -/

def emptyDb : Db := ⟨[], [], 1, 1⟩

def hola_fp : String := compute_source_id (normalize_text "hola" "manual") "manual"

def holaNote : NoteRow :=
  { id := 1, created_at := "2024-01-01T00:00:00", source := "manual",
    source_id := hola_fp, title := "hola", raw_text := "hola", area := "A",
    tipo := "Nota", estado := "Pendiente", prioridad := "Media",
    fecha := "2024-01-01", resumen := "", acciones := "", status := .pendiente,
    notion_page_id := none, last_error := none, attempts := 0,
    next_retry_at := none }

def holaDb : Db := ⟨[holaNote], [], 2, 1⟩

def holaReq : NoteCreateRequest :=
  { raw_text := "hola", source := "manual", area := "A", tipo := "Nota",
    estado := "Pendiente", prioridad := "Media", fecha := "2024-01-01" }

def c2Req : NoteCreateRequest :=
  { raw_text := "Se solicita enviar informe antes del 15/03.", source := "manual",
    area := "A", tipo := "", estado := "Pendiente", prioridad := "",
    fecha := "2025-01-01" }

def c4Sent : NoteRow :=
  { id := 1, created_at := "2024-01-01T00:00:00", source := "manual",
    source_id := "fp1", title := "t", raw_text := "x", area := "A",
    tipo := "Nota", estado := "Pendiente", prioridad := "Media",
    fecha := "2024-01-01", resumen := "", acciones := "", status := .enviado,
    notion_page_id := some "page-1", last_error := none, attempts := 2,
    next_retry_at := some 100 }

def c4Note : NoteRow :=
  { id := 1, created_at := "2024-01-01T00:00:00", source := "manual",
    source_id := "fp1", title := "t", raw_text := "x", area := "A",
    tipo := "Nota", estado := "Pendiente", prioridad := "Media",
    fecha := "2024-01-01", resumen := "", acciones := "", status := .error,
    notion_page_id := none, last_error := some "boom", attempts := 2,
    next_retry_at := some 100 }

def c5Note : NoteRow :=
  { id := 1, created_at := "2024-01-01T00:00:00", source := "manual",
    source_id := "fp5", title := "t", raw_text := "x", area := "A",
    tipo := "Nota", estado := "Pendiente", prioridad := "Media",
    fecha := "2024-01-01", resumen := "", acciones := "", status := .pendiente,
    notion_page_id := none, last_error := none, attempts := 0,
    next_retry_at := none }

def lockedMaster : MasterRow :=
  { id := 1, category := "Estado", value := "Finalizado", active := true,
    system_locked := true }

def areaMaster : MasterRow :=
  { id := 2, category := "Area", value := "General", active := true,
    system_locked := false }

def mastersFixture : List MasterRow := [lockedMaster, areaMaster]

def settingsFixture : AppSettings :=
  { notion_token := "token", notion_database_id := "db" }

def pageOpen : NotionPage := [("Area", "General"), ("Estado", "Pendiente")]

def pageClosed : NotionPage := [("Area", "General"), ("Estado", "Finalizado")]

def c7Eval : String → Option PyVal := fun s =>
  if s = "[' A1 ', '', 'A2']" then some (.list [.str " A1 ", .str "", .str "A2"])
  else none

def c8Complete : String → Except String String := fun _ => .ok "[1, 2]"

def c8JsonLoads : String → Option PyVal := fun s =>
  if s = "[1, 2]" then some (.list [.int 1, .int 2]) else none

def noEval : String → Option PyVal := fun _ => none

def c8GoodComplete : String → Except String String := fun _ =>
  .ok "\x7b\"resumen\": \"R\"\x7d"

def c8GoodJsonLoads : String → Option PyVal := fun s =>
  if s = "\x7b\"resumen\": \"R\"\x7d" then some (.dict [("resumen", .str "R")])
  else none

def c8FailComplete : String → Except String String := fun _ => .error "boom"

/-! # Theorems -/

theorem mem_insertById {r x : NoteRow} {l : List NoteRow} :
    x ∈ insertById r l ↔ x = r ∨ x ∈ l := by
  induction l with
  | nil => simp [insertById]
  | cons y ys ih =>
    by_cases h : r.id ≤ y.id
    · simp [insertById, h]
    · simp [insertById, h, ih]
      tauto

theorem mem_sortById {x : NoteRow} {l : List NoteRow} :
    x ∈ sortById l ↔ x ∈ l := by
  induction l with
  | nil => simp [sortById]
  | cons y ys ih =>
    simp [sortById, mem_insertById, ih]

theorem sorted_insertById {r : NoteRow} {l : List NoteRow}
    (h : l.Sorted (fun a b : NoteRow => a.id ≤ b.id)) :
    (insertById r l).Sorted (fun a b : NoteRow => a.id ≤ b.id) := by
  induction l with
  | nil => simp [insertById]
  | cons y ys ih =>
    rw [List.sorted_cons] at h
    by_cases hle : r.id ≤ y.id
    · rw [insertById, if_pos hle, List.sorted_cons]
      refine ⟨?_, List.sorted_cons.mpr h⟩
      intro b hb
      rcases List.mem_cons.mp hb with rfl | hb
      · exact hle
      · exact Nat.le_trans hle (h.1 b hb)
    · rw [insertById, if_neg hle, List.sorted_cons]
      refine ⟨?_, ih h.2⟩
      intro b hb
      rcases mem_insertById.mp hb with rfl | hb
      · omega
      · exact h.1 b hb

theorem sorted_sortById (l : List NoteRow) :
    (sortById l).Sorted (fun a b : NoteRow => a.id ≤ b.id) := by
  induction l with
  | nil => simp [sortById]
  | cons y ys ih => exact sorted_insertById ih

theorem sha256hex_length (m : List Nat) : (sha256hex m).length = 64 := by
  simp [sha256hex, wordHex, String.length]

/-- C3: for every system-locked master value, `deactivate_master` fails with
the governance error whatever the remote pages hold; the lock check precedes
the remote check (`remoteQueried = false`) and the local masters table is
returned unchanged (the row still active). -/
theorem C3_locked_master_governance (pages : List NotionPage)
    (masters : List MasterRow) (settings : AppSettings) (category value : String)
    (h : is_locked masters category value = true) :
    service_deactivate_master pages masters settings category value =
      ⟨some (lockedMessage value), masters, false⟩ := by
  simp [service_deactivate_master, h]

theorem C3_witness :
    is_locked mastersFixture "Estado" "Finalizado" = true ∧
    service_deactivate_master [pageOpen] mastersFixture settingsFixture
        "Estado" "Finalizado" =
      ⟨some (lockedMessage "Finalizado"), mastersFixture, false⟩ :=
  ⟨by decide,
   C3_locked_master_governance [pageOpen] mastersFixture settingsFixture
     "Estado" "Finalizado" (by decide)⟩

/-- C4 counterexample: `mark_sent` does not clear `next_retry_at`, so after a
successful retry of a previously failed note the row has status `enviado`
and a non-null retry timestamp — refuting "next_retry_at is non-null only
while the status is error" and "after mark_sent a note has no pending retry
timestamp". -/
theorem C4_counterexample :
    ¬ (∀ r ∈ mark_sent [c4Note] 1 "page-1",
        r.next_retry_at ≠ none → r.status = NoteStatus.error) := by
  decide

/-- C4 amended: `mark_sent` records the remote id, sets status `enviado` and
clears the stored error message, but leaves `attempts` and `next_retry_at`
unchanged (a sent note may keep a stale retry timestamp); other rows are
untouched. -/
theorem C4_amended_mark_sent (notes : List NoteRow) (note_id : Nat)
    (pid : String) (r : NoteRow) (hr : r ∈ mark_sent notes note_id pid) :
    ∃ r0 ∈ notes, r.next_retry_at = r0.next_retry_at ∧ r.attempts = r0.attempts ∧
      (r0.id = note_id →
        r.status = .enviado ∧ r.notion_page_id = some pid ∧ r.last_error = none) ∧
      (r0.id ≠ note_id → r = r0) := by
  unfold mark_sent at hr
  rcases List.mem_map.mp hr with ⟨r0, hr0, rfl⟩
  refine ⟨r0, hr0, ?_⟩
  by_cases h : r0.id = note_id <;> simp [h]

theorem C4_witness :
    ∃ r0 ∈ [c4Note],
      c4Sent.next_retry_at = r0.next_retry_at ∧ c4Sent.attempts = r0.attempts ∧
      (r0.id = 1 →
        c4Sent.status = .enviado ∧ c4Sent.notion_page_id = some "page-1" ∧
        c4Sent.last_error = none) ∧
      (r0.id ≠ 1 → c4Sent = r0) :=
  C4_amended_mark_sent [c4Note] 1 "page-1" c4Sent (by decide)

/-- C6: for a non-locked master value with full remote credentials and a
resolvable, non-empty remote property name, `deactivate_master` queries the
remote pages for records whose property equals the value and whose
workflow-state differs from "Finalizado"; a non-zero count fails with that
count embedded in the error message and leaves the masters unchanged, a zero
count deactivates locally. -/
theorem C6_open_refs_governance (pages : List NotionPage)
    (masters : List MasterRow) (settings : AppSettings) (category value p : String)
    (hnl : is_locked masters category value = false)
    (hdb : pyStripS settings.notion_database_id ≠ "")
    (htk : pyStripS settings.notion_token ≠ "")
    (hp : resolve_notion_property_name category settings = some p)
    (hpe : p ≠ "") :
    (service_deactivate_master pages masters settings category value).remoteQueried
        = true ∧
    count_open_pages_for_master pages p value settings.prop_estado "Finalizado" =
      (pages.filter fun pg =>
        pageProp pg p == some value &&
        pageProp pg settings.prop_estado != some "Finalizado").length ∧
    (0 < count_open_pages_for_master pages p value settings.prop_estado "Finalizado" →
      service_deactivate_master pages masters settings category value =
        ⟨some (openPagesMessage value
            (count_open_pages_for_master pages p value settings.prop_estado "Finalizado")),
          masters, true⟩ ∧
      ∃ pre post,
        openPagesMessage value
            (count_open_pages_for_master pages p value settings.prop_estado "Finalizado") =
          pre ++ toString
            (count_open_pages_for_master pages p value settings.prop_estado "Finalizado")
            ++ post) ∧
    (count_open_pages_for_master pages p value settings.prop_estado "Finalizado" = 0 →
      service_deactivate_master pages masters settings category value =
        ⟨none, repo_deactivate_master masters category value, true⟩) := by
  have hsvc : service_deactivate_master pages masters settings category value =
      (if 0 < count_open_pages_for_master pages p value settings.prop_estado "Finalizado"
       then ⟨some (openPagesMessage value
              (count_open_pages_for_master pages p value settings.prop_estado "Finalizado")),
             masters, true⟩
       else ⟨none, repo_deactivate_master masters category value, true⟩) := by
    simp [service_deactivate_master, hnl, hdb, htk, hp, hpe, Nat.pos_iff_ne_zero]
  refine ⟨?_, rfl, ?_, ?_⟩
  · rw [hsvc]
    by_cases hc :
        0 < count_open_pages_for_master pages p value settings.prop_estado "Finalizado" <;>
      simp [hc]
  · intro hc
    rw [hsvc, if_pos hc]
    refine ⟨rfl, "No se puede desactivar '" ++ value ++ "' porque existe en ",
      " página(s) de Notion con Estado distinto de 'Finalizado'.", ?_⟩
    simp [openPagesMessage, String.append_assoc]
  · intro hc
    rw [hsvc, if_neg (by omega)]

theorem C6_witness :
    ((service_deactivate_master [pageOpen, pageClosed] mastersFixture
        settingsFixture "Area" "General").remoteQueried = true ∧
      count_open_pages_for_master [pageOpen, pageClosed] "Area" "General"
          settingsFixture.prop_estado "Finalizado" =
        ([pageOpen, pageClosed].filter fun pg =>
          pageProp pg "Area" == some "General" &&
          pageProp pg settingsFixture.prop_estado != some "Finalizado").length ∧
      (0 < count_open_pages_for_master [pageOpen, pageClosed] "Area" "General"
          settingsFixture.prop_estado "Finalizado" →
        service_deactivate_master [pageOpen, pageClosed] mastersFixture
            settingsFixture "Area" "General" =
          ⟨some (openPagesMessage "General"
              (count_open_pages_for_master [pageOpen, pageClosed] "Area" "General"
                settingsFixture.prop_estado "Finalizado")),
            mastersFixture, true⟩ ∧
        ∃ pre post,
          openPagesMessage "General"
              (count_open_pages_for_master [pageOpen, pageClosed] "Area" "General"
                settingsFixture.prop_estado "Finalizado") =
            pre ++ toString
              (count_open_pages_for_master [pageOpen, pageClosed] "Area" "General"
                settingsFixture.prop_estado "Finalizado") ++ post) ∧
      (count_open_pages_for_master [pageOpen, pageClosed] "Area" "General"
          settingsFixture.prop_estado "Finalizado" = 0 →
        service_deactivate_master [pageOpen, pageClosed] mastersFixture
            settingsFixture "Area" "General" =
          ⟨none, repo_deactivate_master mastersFixture "Area" "General", true⟩)) ∧
    ((count_open_pages_for_master [pageClosed] "Area" "General"
          settingsFixture.prop_estado "Finalizado" = 0 →
        service_deactivate_master [pageClosed] mastersFixture
            settingsFixture "Area" "General" =
          ⟨none, repo_deactivate_master mastersFixture "Area" "General", true⟩)) :=
  ⟨C6_open_refs_governance [pageOpen, pageClosed] mastersFixture settingsFixture
      "Area" "General" "Area" (by decide) (by decide) (by decide) (by decide)
      (by decide),
   (C6_open_refs_governance [pageClosed] mastersFixture settingsFixture
      "Area" "General" "Area" (by decide) (by decide) (by decide) (by decide)
      (by decide)).2.2.2⟩

/-- C10: the settings round-trip does not restore integer fields as
integers.  `models.py` begins with `from __future__ import annotations`, so
the dataclass annotation objects are the strings "int"/"str" and both
identity tests in `SettingsRepository.load` are dead; saving the default
settings and loading them back yields the TEXT `"5"` for `max_attempts`
(and `"60"` for `retry_delay_seconds`) instead of the saved integers. -/
theorem C10_code_bug_eval :
    List.lookup "max_attempts" (settings_load (settings_save [] {})) =
        some (.s "5") ∧
    List.lookup "retry_delay_seconds" (settings_load (settings_save [] {})) =
        some (.s "60") ∧
    ¬ List.lookup "max_attempts" (settings_load (settings_save [] {})) =
        some (.i 5) := by
  decide

/-- C5: marking a failed remote write increments `attempts` by exactly one,
stores the message truncated to at most 1000 characters, sets
`next_retry_at = now + delay` strictly beyond the failure time (the delay is
positive), and no row with that id is selected by `list_retryable` before
that instant; the retryable selection is always sorted by ascending id. -/
theorem C5_mark_error_retry (notes : List NoteRow) (note_id : Nat) (msg : String)
    (delay : Int) (now : Int) (hdelay : 0 < delay) :
    (∀ r ∈ mark_error notes note_id msg delay now, r.id = note_id →
      ∃ r0 ∈ notes, r0.id = note_id ∧ r.attempts = r0.attempts + 1 ∧
        r.last_error = some ⟨msg.data.take 1000⟩ ∧
        (msg.data.take 1000).length ≤ 1000 ∧
        r.status = .error ∧ r.next_retry_at = some (now + delay) ∧
        now < now + delay) ∧
    (∀ now2 : Int, now2 < now + delay →
      ∀ x ∈ list_retryable (mark_error notes note_id msg delay now) now2,
        x.id ≠ note_id) ∧
    (∀ (ns : List NoteRow) (t : Int),
      (list_retryable ns t).Sorted (fun a b : NoteRow => a.id ≤ b.id)) := by
  refine ⟨?_, ?_, fun ns t => sorted_sortById _⟩
  · intro r hr hid
    rcases List.mem_map.mp hr with ⟨r0, hr0, rfl⟩
    by_cases h : r0.id = note_id
    · refine ⟨r0, hr0, h, ?_⟩
      simp only [h, if_pos rfl] at hid ⊢
      refine ⟨rfl, rfl, ?_, rfl, rfl, by omega⟩
      have := List.length_take 1000 msg.data
      omega
    · simp only [if_neg h] at hid
      exact absurd hid h
  · intro now2 hlt x hx hxid
    rw [list_retryable] at hx
    rcases List.mem_filter.mp (mem_sortById.mp hx) with ⟨hxmem, hxpred⟩
    rcases List.mem_map.mp hxmem with ⟨y, hy, rfl⟩
    by_cases h : y.id = note_id
    · rw [if_pos h] at hxpred
      simp [retryablePred] at hxpred
      omega
    · rw [if_neg h] at hxid
      exact h hxid

theorem C5_witness :
    (∀ r ∈ mark_error [c5Note] 1 "boom" 60 0, r.id = 1 →
      ∃ r0 ∈ [c5Note], r0.id = 1 ∧ r.attempts = r0.attempts + 1 ∧
        r.last_error = some ⟨"boom".data.take 1000⟩ ∧
        ("boom".data.take 1000).length ≤ 1000 ∧
        r.status = .error ∧ r.next_retry_at = some ((0 : Int) + 60) ∧
        (0 : Int) < 0 + 60) ∧
    (∀ now2 : Int, now2 < (0 : Int) + 60 →
      ∀ x ∈ list_retryable (mark_error [c5Note] 1 "boom" 60 0) now2,
        x.id ≠ 1) ∧
    (∀ (ns : List NoteRow) (t : Int),
      (list_retryable ns t).Sorted (fun a b : NoteRow => a.id ≤ b.id)) :=
  C5_mark_error_retry [c5Note] 1 "boom" 60 0 (by decide)

/-- C1: the dedup key is exactly the SHA-256 hex digest (64 characters) of
the UTF-8 bytes of `normalizedText ++ "||" ++ source`; a request whose
fingerprint already exists returns `(none, duplicate message)` with the
store untouched and the enrichment never invoked, while a fresh fingerprint
returns the new row's id with the saved message, the enrichment invoked, and
exactly one pending note row appended carrying that fingerprint. -/
theorem C1_create_note_dedup (enrich : String → ProcessedNote) (db : Db)
    (req : NoteCreateRequest) (created_at : String) :
    (compute_source_id (normalize_text req.raw_text req.source) req.source =
        sha256hex (utf8Encode (normalize_text req.raw_text req.source ++ "||" ++ req.source)) ∧
      (compute_source_id (normalize_text req.raw_text req.source) req.source).length = 64) ∧
    (source_exists db.notes
        (compute_source_id (normalize_text req.raw_text req.source) req.source) = true →
      create_note enrich db req created_at = ⟨none, dupMessage, db, false⟩) ∧
    (source_exists db.notes
        (compute_source_id (normalize_text req.raw_text req.source) req.source) = false →
      (create_note enrich db req created_at).note_id = some db.nextNoteId ∧
      (create_note enrich db req created_at).message = savedMessage ∧
      (create_note enrich db req created_at).enrichmentCalled = true ∧
      ∃ newNote,
        (create_note enrich db req created_at).db.notes = db.notes ++ [newNote] ∧
        newNote.id = db.nextNoteId ∧
        newNote.source_id =
          compute_source_id (normalize_text req.raw_text req.source) req.source ∧
        newNote.status = .pendiente) := by
  refine ⟨⟨rfl, sha256hex_length _⟩, ?_, ?_⟩
  · intro h
    simp [create_note, h]
  · intro h
    refine ⟨?_, ?_, ?_, ?_⟩ <;> simp [create_note, h]

theorem C1_witness :
    create_note (fun _ => emptyProcessedNote) holaDb holaReq "t" =
      ⟨none, dupMessage, holaDb, false⟩ ∧
    (create_note (fun _ => emptyProcessedNote) emptyDb holaReq "t").note_id =
      some 1 :=
  ⟨(C1_create_note_dedup (fun _ => emptyProcessedNote) holaDb holaReq "t").2.1
     (by decide),
   ((C1_create_note_dedup (fun _ => emptyProcessedNote) emptyDb holaReq "t").2.2
     (by decide)).1⟩

/-- C2 counterexample: the spec's own end-to-end scenario — captured text
"Se solicita enviar informe antes del 15/03." with an enrichment returning
no actions — produces a note with *zero* actions: no fallback action is
synthesized anywhere in the capture flow. -/
theorem C2_counterexample :
    (create_note (fun _ => emptyProcessedNote) emptyDb c2Req "t").db.actions = [] ∧
    ¬ ((create_note (fun _ => emptyProcessedNote) emptyDb c2Req "t").db.actions.length
        = 1) := by
  constructor
  · rfl
  · decide

/-- C2 amended: when enrichment yields an empty action list for a fresh
note, the capture flow stores an empty action text and inserts no action
rows — regardless of whether the captured text matches obligation-trigger
patterns (there is no fallback synthesis). -/
theorem C2_amended_no_fallback (enrich : String → ProcessedNote) (db : Db)
    (req : NoteCreateRequest) (created_at : String)
    (hempty : (enrich (normalize_text req.raw_text req.source)).acciones = [])
    (hnew : source_exists db.notes
        (compute_source_id (normalize_text req.raw_text req.source) req.source) = false) :
    (create_note enrich db req created_at).db.actions = db.actions ∧
    ∃ newNote,
      (create_note enrich db req created_at).db.notes = db.notes ++ [newNote] ∧
      newNote.acciones = "" := by
  refine ⟨?_, ?_⟩ <;> simp [create_note, hnew, hempty]
  rfl

theorem C2_witness :
    (create_note (fun _ => emptyProcessedNote) emptyDb c2Req "t").db.actions =
      emptyDb.actions ∧
    ∃ newNote,
      (create_note (fun _ => emptyProcessedNote) emptyDb c2Req "t").db.notes =
        emptyDb.notes ++ [newNote] ∧
      newNote.acciones = "" :=
  C2_amended_no_fallback (fun _ => emptyProcessedNote) emptyDb c2Req "t" rfl
    (by decide)

theorem foldl_elemActions (xs : List PyVal) (acc : List String) :
    xs.foldl (fun a v => a ++ elemActions v) acc =
      acc ++ (xs.map elemActions).flatten := by
  induction xs generalizing acc with
  | nil => simp
  | cons x xs ih => simp [ih]

theorem elemActions_dropped {x : PyVal} (h : droppedElem x = true) :
    elemActions x = [] := by
  cases x <;> simp_all [droppedElem, elemActions]

/-- C7 counterexample: the per-element precedence of the claim says a list
element that is "any other scalar" is stringified and kept, so `[42]` would
normalize to `["42"]`; the loop skips every element that is neither a
mapping nor a string, so the code yields `[]`. -/
theorem C7_counterexample :
    ¬ (normalize_actions noEval (.list [.int 42]) = ["42"]) := by
  decide

/-- C7 amended: the loop flattens the list element-wise — mappings emit
their non-empty description (tagged with non-empty action types when
present) then each non-empty sub-item, strings are split on line breaks and
stripped of bullet padding into non-empty fragments, and *any other element
is dropped*; `None` yields `[]`; a non-list top-level value is stringified
and processed as a single string (so a top-level `42` yields `["42"]`); the
stringified list `"[' A1 ', '', 'A2']"` yields `["A1", "A2"]` and the
mapping element `{"descripcion": "X", "subtareas": ["Y", "Z"]}` yields
`["X", "Y", "Z"]`. -/
theorem C7_amended_normalize_actions (ev : String → Option PyVal) :
    (∀ xs : List PyVal,
      normalize_actions ev (.list xs) = (xs.map elemActions).flatten) ∧
    (∀ xs : List PyVal, (∀ x ∈ xs, droppedElem x = true) →
      normalize_actions ev (.list xs) = []) ∧
    (ev "[' A1 ', '', 'A2']" = some (.list [.str " A1 ", .str "", .str "A2"]) →
      normalize_actions ev (.str "[' A1 ', '', 'A2']") = ["A1", "A2"]) ∧
    normalize_actions ev (.int 42) = ["42"] ∧
    normalize_actions ev .pyNone = [] ∧
    normalize_actions ev
        (.list [.dict [("descripcion", .str "X"),
                       ("subtareas", .list [.str "Y", .str "Z"])]]) =
      ["X", "Y", "Z"] := by
  have hlist : ∀ xs : List PyVal,
      normalize_actions ev (.list xs) = (xs.map elemActions).flatten := by
    intro xs
    show (match (.list xs : PyVal) with
          | .pyNone => []
          | v =>
            (match v with
             | .list ys => ys
             | w => [.str (pyToStr w)]).foldl (fun acc value => acc ++ elemActions value) []) =
        (xs.map elemActions).flatten
    exact foldl_elemActions xs []
  refine ⟨hlist, ?_, ?_, rfl, rfl, rfl⟩
  · intro xs h
    rw [hlist]
    induction xs with
    | nil => rfl
    | cons x xs ih =>
      simp only [List.map_cons, List.flatten_cons,
        elemActions_dropped (h x (List.mem_cons_self x xs))]
      simpa using ih fun y hy => h y (List.mem_cons_of_mem x hy)
  · intro hev
    show (match (match ev "[' A1 ', '', 'A2']" with
                 | some v => v
                 | none => .list [.str "[' A1 ', '', 'A2']"]) with
          | .pyNone => []
          | v =>
            (match v with
             | .list ys => ys
             | w => [.str (pyToStr w)]).foldl (fun acc value => acc ++ elemActions value) []) =
        ["A1", "A2"]
    rw [hev]
    decide

theorem C7_witness :
    normalize_actions c7Eval (.str "[' A1 ', '', 'A2']") = ["A1", "A2"] ∧
    normalize_actions c7Eval (.list [.int 7, .bool true, .pyNone]) = [] :=
  ⟨(C7_amended_normalize_actions c7Eval).2.2.1 rfl,
   (C7_amended_normalize_actions c7Eval).2.1 [.int 7, .bool true, .pyNone]
     (by decide)⟩

/-- C8 counterexample: when the upstream call returns valid JSON whose
top-level value is not an object — here the list `[1, 2]` — the strict parse
succeeds inside the `try`, but the `payload.get` field accesses run outside
it, so `process_text` raises `AttributeError` to its caller instead of
returning the neutral result: enrichment *can* abort note creation. -/
theorem C8_counterexample :
    process_text c8Complete c8JsonLoads noEval "texto" =
      .error "AttributeError: payload has no attribute get" ∧
    (process_text c8Complete c8JsonLoads noEval "texto").isOk = false :=
  ⟨rfl, rfl⟩

/-- C8 amended: an empty input, any exception raised while invoking the
upstream call, or a parse failure of the returned blob, each yield the
neutral result (never an exception); a payload parsed to a JSON *object*
also never raises.  Only a successfully parsed non-object payload escapes as
an `AttributeError` (see the counterexample). -/
theorem C8_amended_enrichment_neutral (complete : String → Except String String)
    (jsonLoads literalEval : String → Option PyVal) (text : String) :
    (pyStripS text = "" →
      process_text complete jsonLoads literalEval text = .ok emptyProcessedNote) ∧
    (pyStripS text ≠ "" → ∀ e, complete ⟨text.data.take 4000⟩ = .error e →
      process_text complete jsonLoads literalEval text = .ok emptyProcessedNote) ∧
    (pyStripS text ≠ "" → ∀ out, complete ⟨text.data.take 4000⟩ = .ok out →
      extract_json_object jsonLoads out = none →
      process_text complete jsonLoads literalEval text = .ok emptyProcessedNote) ∧
    (pyStripS text ≠ "" → ∀ out kvs, complete ⟨text.data.take 4000⟩ = .ok out →
      extract_json_object jsonLoads out = some (.dict kvs) →
      ∃ pn, process_text complete jsonLoads literalEval text = .ok pn) := by
  refine ⟨fun h => by simp [process_text, h], fun h e he => ?_, fun h out ho he => ?_,
    fun h out kvs ho he => ?_⟩
  · simp [process_text, h, he]
  · simp [process_text, h, ho, he]
  · exact ⟨{ resumen := pyStripS (pyStrOr (dictGet kvs "resumen" (.str ""))),
             acciones := normalize_actions literalEval (dictGet kvs "acciones" (.list [])),
             tipo_sugerido := pyStripS (pyStrOr (dictGet kvs "tipo_sugerido" (.str ""))),
             prioridad_sugerida :=
               pyStripS (pyStrOr (dictGet kvs "prioridad_sugerida" (.str ""))) },
           by simp [process_text, h, ho, he]⟩

theorem C8_witness :
    process_text c8FailComplete noEval noEval "texto" = .ok emptyProcessedNote ∧
    process_text c8GoodComplete noEval noEval "texto" = .ok emptyProcessedNote ∧
    (∃ pn, process_text c8GoodComplete c8GoodJsonLoads noEval "texto" = .ok pn) ∧
    process_text c8FailComplete noEval noEval "   " = .ok emptyProcessedNote :=
  ⟨(C8_amended_enrichment_neutral c8FailComplete noEval noEval "texto").2.1
     (by decide) "boom" rfl,
   (C8_amended_enrichment_neutral c8GoodComplete noEval noEval "texto").2.2.1
     (by decide) "\x7b\"resumen\": \"R\"\x7d" rfl rfl,
   (C8_amended_enrichment_neutral c8GoodComplete c8GoodJsonLoads noEval
       "texto").2.2.2 (by decide) "\x7b\"resumen\": \"R\"\x7d"
     [("resumen", .str "R")] rfl rfl,
   (C8_amended_enrichment_neutral c8FailComplete noEval noEval "   ").1 rfl⟩

/-! ### Strip lemmas -/

theorem dropWhile_cons_eq_self {α : Type} {p : α → Bool} {l : List α}
    (h : ∀ a, l.head? = some a → p a = false) : l.dropWhile p = l := by
  cases l with
  | nil => rfl
  | cons c rest =>
    rw [List.dropWhile_cons, if_neg]
    simp [h c rfl]

theorem head?_dropWhile {α : Type} (p : α → Bool) :
    ∀ (l : List α) (a : α), (l.dropWhile p).head? = some a → p a = false := by
  intro l
  induction l with
  | nil => intro a h; simp [List.dropWhile] at h
  | cons c rest ih =>
    intro a h
    by_cases hc : p c = true
    · rw [List.dropWhile_cons, if_pos hc] at h
      exact ih a h
    · rw [List.dropWhile_cons, if_neg hc] at h
      simp only [List.head?_cons, Option.some.injEq] at h
      rw [← h]
      simpa using hc

theorem dropEndWhile_decomp (p : Char → Bool) (l : List Char) :
    l = dropEndWhile p l ++ (l.reverse.takeWhile p).reverse := by
  conv_lhs => rw [← List.reverse_reverse l,
    ← List.takeWhile_append_dropWhile p l.reverse]
  rw [List.reverse_append]
  rfl

theorem getLast?_dropEndWhile {p : Char → Bool} {l : List Char} {a : Char}
    (h : (dropEndWhile p l).getLast? = some a) : p a = false := by
  rw [dropEndWhile, List.getLast?_reverse] at h
  exact head?_dropWhile p l.reverse a h

theorem dropEndWhile_eq_self {p : Char → Bool} {l : List Char}
    (h : ∀ a, l.getLast? = some a → p a = false) : dropEndWhile p l = l := by
  rw [dropEndWhile, dropWhile_cons_eq_self, List.reverse_reverse]
  intro a ha
  exact h a (by rwa [List.head?_reverse] at ha)

theorem head?_dropEndWhile {p : Char → Bool} {l : List Char} {a : Char}
    (h : (dropEndWhile p l).head? = some a) : l.head? = some a := by
  conv_lhs => rw [dropEndWhile_decomp p l]
  cases hde : dropEndWhile p l with
  | nil => rw [hde] at h; simp at h
  | cons c rest =>
    rw [hde] at h
    simp only [List.head?_cons, Option.some.injEq] at h
    simp [h]

theorem mem_dropEndWhile {p : Char → Bool} {l : List Char} {c : Char}
    (h : c ∈ dropEndWhile p l) : c ∈ l := by
  rw [dropEndWhile] at h
  have := List.mem_reverse.mp h
  exact List.mem_reverse.mp ((List.dropWhile_sublist p).subset this)

theorem mem_pyStrip {l : List Char} {c : Char} (h : c ∈ pyStrip l) : c ∈ l :=
  (List.dropWhile_sublist isPySpace).subset (mem_dropEndWhile h)

theorem stripped_pyStrip (l : List Char) : stripped (pyStrip l) = true := by
  rw [stripped, Bool.and_eq_true]
  constructor
  · cases hh : (pyStrip l).head? with
    | none => rfl
    | some c =>
      have := head?_dropWhile isPySpace l c (head?_dropEndWhile hh)
      simp [this]
  · cases hh : (pyStrip l).getLast? with
    | none => rfl
    | some c =>
      have := getLast?_dropEndWhile hh
      simp [this]

theorem pyStrip_eq_self {l : List Char} (h : stripped l = true) : pyStrip l = l := by
  rw [stripped, Bool.and_eq_true] at h
  rw [pyStrip, stripWith, dropWhile_cons_eq_self, dropEndWhile_eq_self]
  · intro a ha
    rcases h with ⟨_, h2⟩
    rw [ha] at h2
    simpa using h2
  · intro a ha
    rcases h with ⟨h1, _⟩
    rw [ha] at h1
    simpa using h1

theorem stripped_reverse (l : List Char) : stripped l.reverse = stripped l := by
  rw [stripped, stripped, List.head?_reverse, List.getLast?_reverse, Bool.and_comm]

theorem dropWhile_all {α : Type} {p : α → Bool} {l : List α}
    (h : ∀ a ∈ l, p a = true) : l.dropWhile p = [] := by
  induction l with
  | nil => rfl
  | cons c rest ih =>
    rw [List.dropWhile_cons, if_pos (h c (List.mem_cons_self c rest))]
    exact ih fun a ha => h a (List.mem_cons_of_mem c ha)

theorem pyStrip_all_space {l : List Char} (h : ∀ c ∈ l, isPySpace c = true) :
    pyStrip l = [] := by
  rw [pyStrip, stripWith, dropWhile_all h]
  rfl

/-! ### collapseRuns lemmas -/

theorem go_space_true {c : Char} {rest : List Char}
    (hc : (c = ' ' || c = '\t') = true) :
    collapseRunsGo true (c :: rest) = collapseRunsGo true rest := by
  rw [collapseRunsGo, if_pos hc]
  simp

theorem go_space_false {c : Char} {rest : List Char}
    (hc : (c = ' ' || c = '\t') = true) :
    collapseRunsGo false (c :: rest) = ' ' :: collapseRunsGo true rest := by
  rw [collapseRunsGo, if_pos hc]
  simp

theorem go_nonspace {c : Char} {rest : List Char} (b : Bool)
    (hc : (c = ' ' || c = '\t') = false) :
    collapseRunsGo b (c :: rest) = c :: collapseRunsGo false rest := by
  rw [collapseRunsGo, if_neg (by simp [hc])]

theorem noRuns_cons {c : Char} {l : List Char} :
    noRuns (c :: l) = true ↔
      (¬c = '\t') ∧ (∀ d, l.head? = some d → ¬(isSpaceTab c = true ∧ isSpaceTab d = true)) ∧
        noRuns l = true := by
  cases l with
  | nil => simp [noRuns]
  | cons d rest =>
    simp only [noRuns, Bool.and_eq_true, Bool.not_eq_eq_eq_not, Bool.not_true,
      decide_eq_false_iff_not, List.head?_cons, Option.some.injEq,
      Bool.not_eq_true ]
    constructor
    · rintro ⟨⟨h1, h2⟩, h3⟩
      refine ⟨h1, ?_, h3⟩
      rintro e rfl hst
      rw [hst.1, hst.2] at h2
      simp at h2
    · rintro ⟨h1, h2, h3⟩
      refine ⟨⟨h1, ?_⟩, h3⟩
      by_cases hc : isSpaceTab c = true
      · by_cases hd : isSpaceTab d = true
        · exact absurd ⟨hc, hd⟩ (h2 d rfl)
        · simp [hd]
      · simp [hc]

theorem collapseRunsGo_true_head :
    ∀ (l : List Char) (c : Char), (collapseRunsGo true l).head? = some c →
      isSpaceTab c = false := by
  intro l
  induction l with
  | nil => intro c h; simp [collapseRunsGo] at h
  | cons a rest ih =>
    intro c h
    by_cases ha : (a = ' ' || a = '\t') = true
    · rw [go_space_true ha] at h
      exact ih c h
    · rw [go_nonspace true (by simpa using ha)] at h
      simp only [List.head?_cons, Option.some.injEq] at h
      subst h
      simpa [isSpaceTab] using ha

theorem noRuns_collapseRunsGo : ∀ (l : List Char) (b : Bool),
    noRuns (collapseRunsGo b l) = true := by
  intro l
  induction l with
  | nil => intro b; cases b <;> rfl
  | cons c rest ih =>
    intro b
    by_cases hc : (c = ' ' || c = '\t') = true
    · cases b with
      | true => rw [go_space_true hc]; exact ih true
      | false =>
        rw [go_space_false hc, noRuns_cons]
        refine ⟨by decide, ?_, ih true⟩
        intro d hd hdd
        rw [collapseRunsGo_true_head rest d hd] at hdd
        simp at hdd
    · rw [go_nonspace b (by simpa using hc), noRuns_cons]
      have hcst : isSpaceTab c = false := by simpa [isSpaceTab] using hc
      refine ⟨?_, ?_, ih false⟩
      · intro h
        subst h
        simp [isSpaceTab] at hcst
      · intro d hd hdd
        rw [hcst] at hdd
        simp at hdd

theorem noRuns_collapseRuns (l : List Char) : noRuns (collapseRuns l) = true :=
  noRuns_collapseRunsGo l false

theorem collapseRunsGo_false_eq_self : ∀ {l : List Char},
    noRuns l = true → collapseRunsGo false l = l := by
  intro l
  induction l with
  | nil => intro _; rfl
  | cons c rest ih =>
    intro h
    rw [noRuns_cons] at h
    rcases h with ⟨h1, h2, h3⟩
    by_cases hc : (c = ' ' || c = '\t') = true
    · rw [go_space_false hc]
      have hcsp : c = ' ' := by
        rcases Bool.or_eq_true .. |>.mp hc with h | h
        · exact of_decide_eq_true h
        · exact absurd (of_decide_eq_true h) h1
      have hrest : collapseRunsGo true rest = collapseRunsGo false rest := by
        cases rest with
        | nil => rfl
        | cons d r2 =>
          have hd : isSpaceTab d = false := by
            by_cases hdd : isSpaceTab d = true
            · exact absurd ⟨by simp [isSpaceTab, hcsp], hdd⟩ (h2 d rfl)
            · simpa using hdd
          have hd' : (d = ' ' || d = '\t') = false := by
            simpa [isSpaceTab] using hd
          rw [go_nonspace true hd', go_nonspace false hd']
      rw [hcsp, hrest, ih h3]
    · rw [go_nonspace false (by simpa using hc), ih h3]

theorem collapseRuns_eq_self {l : List Char} (h : noRuns l = true) :
    collapseRuns l = l :=
  collapseRunsGo_false_eq_self h

theorem noRuns_append_right : ∀ {l1 l2 : List Char},
    noRuns (l1 ++ l2) = true → noRuns l2 = true := by
  intro l1
  induction l1 with
  | nil => intro l2 h; exact h
  | cons c rest ih =>
    intro l2 h
    rw [List.cons_append, noRuns_cons] at h
    exact ih h.2.2

theorem noRuns_append_left : ∀ {l1 l2 : List Char},
    noRuns (l1 ++ l2) = true → noRuns l1 = true := by
  intro l1
  induction l1 with
  | nil => intro l2 _; rfl
  | cons c rest ih =>
    intro l2 h
    rw [List.cons_append, noRuns_cons] at h
    rcases h with ⟨h1, h2, h3⟩
    rw [noRuns_cons]
    refine ⟨h1, ?_, ih h3⟩
    intro d hd
    refine h2 d ?_
    cases rest with
    | nil => simp at hd
    | cons e r2 => simpa using hd

theorem noRuns_pyStrip {l : List Char} (h : noRuns l = true) :
    noRuns (pyStrip l) = true := by
  have h1 : noRuns (l.dropWhile isPySpace) = true := by
    have := List.takeWhile_append_dropWhile isPySpace l
    rw [← this] at h
    exact noRuns_append_right h
  rw [pyStrip, stripWith]
  have := dropEndWhile_decomp isPySpace (l.dropWhile isPySpace)
  rw [this] at h1
  exact noRuns_append_left h1

theorem mem_collapseRunsGo : ∀ {l : List Char} {b : Bool} {c : Char},
    c ∈ collapseRunsGo b l → c ∈ l ∨ c = ' ' := by
  intro l
  induction l with
  | nil => intro b c h; cases b <;> simp [collapseRunsGo] at h
  | cons a rest ih =>
    intro b c h
    by_cases ha : (a = ' ' || a = '\t') = true
    · cases b with
      | true =>
        rw [go_space_true ha] at h
        rcases ih h with h2 | h2
        · exact Or.inl (List.mem_cons_of_mem a h2)
        · exact Or.inr h2
      | false =>
        rw [go_space_false ha] at h
        rcases List.mem_cons.mp h with rfl | h2
        · exact Or.inr rfl
        · rcases ih h2 with h3 | h3
          · exact Or.inl (List.mem_cons_of_mem a h3)
          · exact Or.inr h3
    · rw [go_nonspace b (by simpa using ha)] at h
      rcases List.mem_cons.mp h with rfl | h2
      · exact Or.inl (List.mem_cons_self _ _)
      · rcases ih h2 with h3 | h3
        · exact Or.inl (List.mem_cons_of_mem a h3)
        · exact Or.inr h3

theorem mem_collapseRuns {l : List Char} {c : Char} (h : c ∈ collapseRuns l) :
    c ∈ l ∨ c = ' ' :=
  mem_collapseRunsGo h

/-! ### split / join lemmas -/

theorem joinWith_cons₂ (sep : Char) (p q : List Char) (rest : List (List Char)) :
    joinWith sep (p :: q :: rest) = p ++ sep :: joinWith sep (q :: rest) := rfl

theorem splitGo_append_noSep {sep : Char} : ∀ {p : List Char} (cur l : List Char),
    (∀ c ∈ p, ¬c = sep) →
    splitGo sep cur (p ++ l) = splitGo sep (p.reverse ++ cur) l := by
  intro p
  induction p with
  | nil => intro cur l _; simp
  | cons c p ih =>
    intro cur l h
    have hc : ¬c = sep := h c (List.mem_cons_self c p)
    rw [List.cons_append, splitGo, if_neg hc, ih (c :: cur) l
      (fun a ha => h a (List.mem_cons_of_mem c ha))]
    simp

theorem splitOnChar_single {sep : Char} {p : List Char} (h : ∀ c ∈ p, ¬c = sep) :
    splitOnChar sep p = [p] := by
  rw [splitOnChar]
  conv_lhs => rw [← List.append_nil p]
  rw [splitGo_append_noSep [] [] h]
  simp [splitGo]

theorem split_join : ∀ {ps : List (List Char)}, ps ≠ [] →
    (∀ p ∈ ps, ∀ c ∈ p, ¬c = '\n') →
    splitOnChar '\n' (joinWith '\n' ps) = ps := by
  intro ps
  induction ps with
  | nil => intro h _; exact absurd rfl h
  | cons p qs ih =>
    intro _ h
    cases qs with
    | nil => exact splitOnChar_single (h p (List.mem_cons_self p []))
    | cons q rest =>
      rw [joinWith_cons₂, splitOnChar,
        splitGo_append_noSep [] (Char.ofNat 10 :: joinWith '\n' (q :: rest))
          (h p (List.mem_cons_self p _)), splitGo, if_pos rfl]
      rw [show splitGo '\n' [] (joinWith '\n' (q :: rest)) =
          splitOnChar '\n' (joinWith '\n' (q :: rest)) from rfl]
      rw [ih (by simp) (fun x hx => h x (List.mem_cons_of_mem p hx))]
      simp

theorem joinWith_append_single (sep : Char) :
    ∀ {xs : List (List Char)} (y : List Char), xs ≠ [] →
    joinWith sep (xs ++ [y]) = joinWith sep xs ++ sep :: y := by
  intro xs
  induction xs with
  | nil => intro y h; exact absurd rfl h
  | cons x xs ih =>
    intro y _
    cases xs with
    | nil => rfl
    | cons x2 rest =>
      rw [List.cons_append, List.cons_append, joinWith_cons₂]
      have ih' := ih y (by simp)
      rw [List.cons_append] at ih'
      rw [ih', joinWith_cons₂]
      simp [List.append_assoc]

theorem joinWith_reverse (sep : Char) : ∀ (ps : List (List Char)),
    (joinWith sep ps).reverse = joinWith sep ((ps.map List.reverse).reverse) := by
  intro ps
  induction ps with
  | nil => rfl
  | cons p qs ih =>
    cases qs with
    | nil => simp [joinWith]
    | cons q rest =>
      rw [joinWith_cons₂, List.reverse_append, List.reverse_cons, ih]
      conv_rhs => rw [List.map_cons, List.reverse_cons]
      have hne : ((q :: rest).map List.reverse).reverse ≠ [] := by simp
      rw [joinWith_append_single sep p.reverse hne]
      simp [List.append_assoc]

theorem isEmpty_comm_reverse (l : List Char) : l.reverse.isEmpty = l.isEmpty := by
  cases hl : l.reverse with
  | nil =>
    rw [List.reverse_eq_nil_iff.mp hl]
  | cons c t =>
    cases l with
    | nil => simp at hl
    | cons d u => simp [List.isEmpty]

theorem dropWhile_isEmpty_map_reverse : ∀ (ps : List (List Char)),
    (ps.map List.reverse).dropWhile List.isEmpty =
      (ps.dropWhile List.isEmpty).map List.reverse := by
  intro ps
  induction ps with
  | nil => rfl
  | cons p qs ih =>
    rw [List.map_cons, List.dropWhile_cons, List.dropWhile_cons,
      isEmpty_comm_reverse]
    by_cases hp : p.isEmpty = true
    · rw [if_pos hp, if_pos hp, ih]
    · rw [if_neg hp, if_neg hp, List.map_cons]

theorem dropWhile_joinWith_stripped : ∀ {ps : List (List Char)},
    (∀ p ∈ ps, stripped p = true) →
    (joinWith '\n' ps).dropWhile isPySpace =
      joinWith '\n' (ps.dropWhile List.isEmpty) := by
  intro ps
  induction ps with
  | nil => intro _; rfl
  | cons p qs ih =>
    intro h
    cases p with
    | nil =>
      cases qs with
      | nil => rfl
      | cons q rest =>
        rw [joinWith_cons₂, List.nil_append, List.dropWhile_cons,
          if_pos (by decide), ih (fun x hx => h x (List.mem_cons_of_mem _ hx))]
        rfl
    | cons c t =>
      have hc : isPySpace c = false := by
        have := h (c :: t) (List.mem_cons_self _ _)
        rw [stripped, Bool.and_eq_true] at this
        simpa using this.1
      cases qs with
      | nil =>
        show List.dropWhile isPySpace (c :: t) =
          joinWith '\n' (List.dropWhile List.isEmpty [c :: t])
        rw [List.dropWhile_cons, if_neg (by simp [hc])]
        rfl
      | cons q rest =>
        rw [joinWith_cons₂, List.cons_append, List.dropWhile_cons,
          if_neg (by simp [hc])]
        show _ = joinWith '\n' ((c :: t) :: q :: rest)
        rw [joinWith_cons₂, List.cons_append]

/-! ### pyStrip over joins and the canonical form of collapse_spaces -/

theorem trimEndEmpties_decomp (ps : List (List Char)) :
    ps = trimEndEmpties ps ++ (ps.reverse.takeWhile List.isEmpty).reverse := by
  conv_lhs => rw [← List.reverse_reverse ps,
    ← List.takeWhile_append_dropWhile List.isEmpty ps.reverse]
  rw [List.reverse_append]
  rfl

theorem head?_trimEndEmpties {ps : List (List Char)} {q : List Char}
    (h : (trimEndEmpties ps).head? = some q) : ps.head? = some q := by
  conv_lhs => rw [trimEndEmpties_decomp ps]
  cases hde : trimEndEmpties ps with
  | nil => rw [hde] at h; simp at h
  | cons c rest =>
    rw [hde] at h
    simp only [List.head?_cons, Option.some.injEq] at h
    simp [h]

theorem getLast?_trimEndEmpties {ps : List (List Char)} {q : List Char}
    (h : (trimEndEmpties ps).getLast? = some q) : q.isEmpty = false := by
  rw [trimEndEmpties, List.getLast?_reverse] at h
  exact head?_dropWhile List.isEmpty ps.reverse q h

theorem trimEndEmpties_eq_self {ps : List (List Char)}
    (h : ∀ q, ps.getLast? = some q → q.isEmpty = false) :
    trimEndEmpties ps = ps := by
  rw [trimEndEmpties, dropWhile_cons_eq_self, List.reverse_reverse]
  intro a ha
  exact h a (by rwa [List.head?_reverse] at ha)

theorem mem_trimEndEmpties {ps : List (List Char)} {q : List Char}
    (h : q ∈ trimEndEmpties ps) : q ∈ ps := by
  rw [trimEndEmpties] at h
  have := List.mem_reverse.mp h
  exact List.mem_reverse.mp ((List.dropWhile_sublist List.isEmpty).subset this)

theorem pyStrip_joinWith_stripped {ps : List (List Char)}
    (h : ∀ p ∈ ps, stripped p = true) :
    pyStrip (joinWith '\n' ps) =
      joinWith '\n' (trimEndEmpties (ps.dropWhile List.isEmpty)) := by
  rw [pyStrip, stripWith, dropWhile_joinWith_stripped h]
  have h1 : ∀ p ∈ ps.dropWhile List.isEmpty, stripped p = true := fun p hp =>
    h p ((List.dropWhile_sublist List.isEmpty).subset hp)
  rw [dropEndWhile, joinWith_reverse]
  have h2 : ∀ p ∈ ((ps.dropWhile List.isEmpty).map List.reverse).reverse,
      stripped p = true := by
    intro p hp
    rcases List.mem_map.mp (List.mem_reverse.mp hp) with ⟨x, hx, rfl⟩
    rw [stripped_reverse]
    exact h1 x hx
  rw [dropWhile_joinWith_stripped h2, ← List.map_reverse,
    dropWhile_isEmpty_map_reverse, joinWith_reverse, List.map_map]
  have hmm : (List.dropWhile List.isEmpty (ps.dropWhile List.isEmpty).reverse).map
        (List.reverse ∘ List.reverse) =
      List.dropWhile List.isEmpty (ps.dropWhile List.isEmpty).reverse :=
    (List.map_congr_left (fun x _ => List.reverse_reverse x)).trans (List.map_id _)
  rw [hmm]
  rfl

theorem splitGo_piece_noSep {sep : Char} : ∀ {l cur piece : List Char},
    (∀ c ∈ cur, ¬c = sep) → piece ∈ splitGo sep cur l → ∀ c ∈ piece, ¬c = sep := by
  intro l
  induction l with
  | nil =>
    intro cur piece hcur hp c hc
    simp [splitGo] at hp
    subst hp
    exact hcur c (List.mem_reverse.mp hc)
  | cons a rest ih =>
    intro cur piece hcur hp c hc
    by_cases ha : a = sep
    · rw [splitGo, if_pos ha] at hp
      rcases List.mem_cons.mp hp with rfl | hp2
      · exact hcur c (List.mem_reverse.mp hc)
      · exact ih (by simp) hp2 c hc
    · rw [splitGo, if_neg ha] at hp
      refine ih ?_ hp c hc
      intro d hd
      rcases List.mem_cons.mp hd with rfl | hd2
      · exact ha
      · exact hcur d hd2

theorem splitOnChar_piece_noSep {sep : Char} {l piece : List Char}
    (hp : piece ∈ splitOnChar sep l) : ∀ c ∈ piece, ¬c = sep :=
  splitGo_piece_noSep (by simp) hp

theorem collapse_canonical (l : List Char) :
    ∃ qs : List (List Char),
      collapse_spaces l = joinWith '\n' qs ∧
      (∀ q ∈ qs, stripped q = true ∧ noRuns q = true ∧ (∀ c ∈ q, ¬c = '\n')) ∧
      (∀ q, qs.head? = some q → q.isEmpty = false) ∧
      (∀ q, qs.getLast? = some q → q.isEmpty = false) := by
  have hstr : ∀ p ∈ (splitOnChar '\n' l).map (fun line => pyStrip (collapseRuns line)),
      stripped p = true := by
    intro p hp
    rcases List.mem_map.mp hp with ⟨line, _, rfl⟩
    exact stripped_pyStrip _
  refine ⟨trimEndEmpties (((splitOnChar '\n' l).map
      (fun line => pyStrip (collapseRuns line))).dropWhile List.isEmpty),
    pyStrip_joinWith_stripped hstr, ?_, ?_, ?_⟩
  · intro q hq
    have hq2 := (List.dropWhile_sublist List.isEmpty).subset (mem_trimEndEmpties hq)
    rcases List.mem_map.mp hq2 with ⟨line, hline, rfl⟩
    refine ⟨stripped_pyStrip _, noRuns_pyStrip (noRuns_collapseRuns line), ?_⟩
    intro c hc
    rcases mem_collapseRuns (mem_pyStrip hc) with h1 | h1
    · exact splitOnChar_piece_noSep hline c h1
    · subst h1; decide
  · intro q hq
    exact head?_dropWhile List.isEmpty _ q (head?_trimEndEmpties hq)
  · intro q hq
    exact getLast?_trimEndEmpties hq

theorem collapse_join_fixed {qs : List (List Char)}
    (hq : ∀ q ∈ qs, stripped q = true ∧ noRuns q = true ∧ (∀ c ∈ q, ¬c = '\n'))
    (hh : ∀ q, qs.head? = some q → q.isEmpty = false)
    (hl : ∀ q, qs.getLast? = some q → q.isEmpty = false) :
    collapse_spaces (joinWith '\n' qs) = joinWith '\n' qs := by
  cases qs with
  | nil => rfl
  | cons q0 rest =>
    rw [collapse_spaces, split_join (by simp) (fun p hp => (hq p hp).2.2)]
    have hmap : (q0 :: rest).map (fun line => pyStrip (collapseRuns line)) =
        q0 :: rest :=
      (List.map_congr_left (fun x hx => by
        rw [collapseRuns_eq_self (hq x hx).2.1, pyStrip_eq_self (hq x hx).1]
        rfl)).trans
        (List.map_id _)
    rw [hmap, pyStrip_joinWith_stripped (fun p hp => (hq p hp).1),
      dropWhile_cons_eq_self hh, trimEndEmpties_eq_self hl]

theorem collapse_spaces_idem (l : List Char) :
    collapse_spaces (collapse_spaces l) = collapse_spaces l := by
  obtain ⟨qs, heq, hq, hh, hl⟩ := collapse_canonical l
  rw [heq, collapse_join_fixed hq hh hl]

/-! ### Newline-normalization lemmas -/

theorem replaceCRLF_cons_ne {a : Char} {rest : List Char} (ha : ¬a = '\r') :
    replaceCRLF (a :: rest) = a :: replaceCRLF rest := by
  rw [replaceCRLF.eq_def]
  split
  · rename_i h
    injection h with h1 h2
    exact absurd h1 ha
  · rename_i h
    injection h with h1 h2
    rw [h1, h2]
  · rename_i h
    simp at h

theorem replaceCRLF_cr_ne {b : Char} {r : List Char} (hb : ¬b = '\n') :
    replaceCRLF ('\r' :: b :: r) = '\r' :: replaceCRLF (b :: r) := by
  rw [replaceCRLF.eq_def]
  split
  · rename_i h
    injection h with h1 h2
    injection h2 with h2 h3
    exact absurd h2 hb
  · rename_i h
    injection h with h1 h2
    rw [h1, h2]
  · rename_i h
    simp at h

theorem replaceCRLF_noCR : ∀ {l : List Char}, (∀ c ∈ l, ¬c = '\r') →
    replaceCRLF l = l := by
  intro l
  induction l with
  | nil => intro _; rfl
  | cons a rest ih =>
    intro h
    rw [replaceCRLF_cons_ne (h a (List.mem_cons_self a rest)),
      ih fun c hc => h c (List.mem_cons_of_mem a hc)]

theorem mem_replaceCRLF : ∀ (l : List Char) (c : Char),
    c ∈ replaceCRLF l → c ∈ l ∨ c = '\n' := by
  intro l
  induction l with
  | nil => intro c h; simp [replaceCRLF] at h
  | cons a rest ih =>
    intro c h
    by_cases ha : a = '\r'
    · subst ha
      cases rest with
      | nil =>
        rw [show replaceCRLF ['\r'] = ['\r'] from rfl] at h
        exact Or.inl h
      | cons b r =>
        by_cases hb : b = '\n'
        · subst hb
          rw [show replaceCRLF ('\r' :: '\n' :: r) = '\n' :: replaceCRLF r from rfl] at h
          rcases List.mem_cons.mp h with rfl | h2
          · exact Or.inr rfl
          · have e : replaceCRLF ('\n' :: r) = '\n' :: replaceCRLF r := rfl
            rcases ih c (by rw [e]; exact List.mem_cons_of_mem _ h2) with h3 | h3
            · exact Or.inl (List.mem_cons_of_mem _ h3)
            · exact Or.inr h3
        · rw [replaceCRLF_cr_ne hb] at h
          rcases List.mem_cons.mp h with rfl | h2
          · exact Or.inl (List.mem_cons_self _ _)
          · rcases ih c h2 with h3 | h3
            · exact Or.inl (List.mem_cons_of_mem _ h3)
            · exact Or.inr h3
    · rw [replaceCRLF_cons_ne ha] at h
      rcases List.mem_cons.mp h with rfl | h2
      · exact Or.inl (List.mem_cons_self _ _)
      · rcases ih c h2 with h3 | h3
        · exact Or.inl (List.mem_cons_of_mem _ h3)
        · exact Or.inr h3

theorem mem_replaceCR {l : List Char} {c : Char} (h : c ∈ replaceCR l) :
    c ∈ l ∨ c = '\n' := by
  rcases List.mem_map.mp h with ⟨a, ha, rfl⟩
  by_cases h2 : a = '\r'
  · simp [h2]
  · simp only [if_neg h2]
    exact Or.inl ha

theorem replaceCR_not_cr {l : List Char} : ∀ c ∈ replaceCR l, ¬c = '\r' := by
  intro c h
  rcases List.mem_map.mp h with ⟨a, _, rfl⟩
  by_cases h2 : a = '\r'
  · simp [h2]
  · simp only [if_neg h2]
    exact h2

theorem replaceCR_eq_self {l : List Char} (h : ∀ c ∈ l, ¬c = '\r') :
    replaceCR l = l :=
  (List.map_congr_left (fun x hx => by rw [if_neg (h x hx)]; rfl)).trans
    (List.map_id _)

theorem normalize_newlines_not_cr {raw : List Char} :
    ∀ c ∈ normalize_newlines raw, ¬c = '\r' := fun c h =>
  replaceCR_not_cr c (mem_pyStrip h)

theorem normalize_newlines_eq_self {x : List Char} (hcr : ∀ c ∈ x, ¬c = '\r')
    (hst : stripped x = true) : normalize_newlines x = x := by
  rw [normalize_newlines, replaceCRLF_noCR hcr, replaceCR_eq_self hcr,
    pyStrip_eq_self hst]

theorem stripped_collapse_spaces (l : List Char) :
    stripped (collapse_spaces l) = true := by
  rw [collapse_spaces]
  exact stripped_pyStrip _

theorem mem_joinWith_nl : ∀ {ps : List (List Char)} {c : Char},
    c ∈ joinWith '\n' ps → (∃ p ∈ ps, c ∈ p) ∨ c = '\n' := by
  intro ps
  induction ps with
  | nil => intro c h; simp [joinWith] at h
  | cons p qs ih =>
    intro c h
    cases qs with
    | nil => exact Or.inl ⟨p, List.mem_cons_self _ _, h⟩
    | cons q rest =>
      rw [joinWith_cons₂] at h
      rcases List.mem_append.mp h with h1 | h1
      · exact Or.inl ⟨p, List.mem_cons_self _ _, h1⟩
      · rcases List.mem_cons.mp h1 with rfl | h2
        · exact Or.inr rfl
        · rcases ih h2 with ⟨x, hx, hcx⟩ | h3
          · exact Or.inl ⟨x, List.mem_cons_of_mem _ hx, hcx⟩
          · exact Or.inr h3

theorem splitGo_piece_mem {sep : Char} : ∀ {l cur piece : List Char} {c : Char},
    piece ∈ splitGo sep cur l → c ∈ piece → c ∈ cur ∨ c ∈ l := by
  intro l
  induction l with
  | nil =>
    intro cur piece c hp hc
    simp [splitGo] at hp
    subst hp
    exact Or.inl (List.mem_reverse.mp hc)
  | cons a rest ih =>
    intro cur piece c hp hc
    by_cases ha : a = sep
    · rw [splitGo, if_pos ha] at hp
      rcases List.mem_cons.mp hp with rfl | hp2
      · exact Or.inl (List.mem_reverse.mp hc)
      · rcases ih hp2 hc with h1 | h1
        · exact absurd h1 (List.not_mem_nil c)
        · exact Or.inr (List.mem_cons_of_mem _ h1)
    · rw [splitGo, if_neg ha] at hp
      rcases ih hp hc with h1 | h1
      · rcases List.mem_cons.mp h1 with rfl | h2
        · exact Or.inr (List.mem_cons_self _ _)
        · exact Or.inl h2
      · exact Or.inr (List.mem_cons_of_mem _ h1)

theorem mem_collapse_spaces {l : List Char} {c : Char} (h : c ∈ collapse_spaces l) :
    c ∈ l ∨ c = ' ' ∨ c = '\n' := by
  rw [collapse_spaces] at h
  rcases mem_joinWith_nl (mem_pyStrip h) with ⟨p, hp, hcp⟩ | hnl
  · rcases List.mem_map.mp hp with ⟨line, hline, rfl⟩
    rcases mem_collapseRuns (mem_pyStrip hcp) with h3 | h3
    · rw [splitOnChar] at hline
      rcases splitGo_piece_mem hline h3 with h4 | h4
      · exact absurd h4 (List.not_mem_nil _)
      · exact Or.inl h4
    · exact Or.inr (Or.inl h3)
  · exact Or.inr (Or.inr hnl)

/-- C9: for every text and every source other than the pasted-email tag,
`normalize_text` is idempotent; and every empty or whitespace-only input
normalizes to the empty string (for every source). -/
theorem C9_normalize_idempotent :
    (∀ T source : String, source ≠ "email_pasted" →
      normalize_text (normalize_text T source) source = normalize_text T source) ∧
    (∀ T source : String, (∀ c ∈ T.data, isPySpace c = true) →
      normalize_text T source = "") := by
  constructor
  · intro T source hs
    refine congrArg String.mk ?_
    show normalizeTextData (normalizeTextData T.data source) source =
      normalizeTextData T.data source
    simp only [normalizeTextData]
    rw [if_neg hs, if_neg hs]
    have hX : normalize_newlines (collapse_spaces (normalize_newlines T.data)) =
        collapse_spaces (normalize_newlines T.data) := by
      apply normalize_newlines_eq_self
      · intro c hc
        rcases mem_collapse_spaces hc with h1 | h1 | h1
        · exact normalize_newlines_not_cr c h1
        · subst h1; decide
        · subst h1; decide
      · exact stripped_collapse_spaces _
    rw [hX, collapse_spaces_idem]
  · intro T source hT
    apply String.ext
    show normalizeTextData T.data source = String.data ""
    rw [show String.data "" = [] from rfl]
    have h1 : normalize_newlines T.data = [] := by
      apply pyStrip_all_space
      intro c hc
      rcases mem_replaceCR hc with h2 | h2
      · rcases mem_replaceCRLF _ c h2 with h3 | h3
        · exact hT c h3
        · subst h3; decide
      · subst h2; decide
    simp only [normalizeTextData, normalize_newlines] at h1 ⊢
    rw [h1]
    by_cases hs : source = "email_pasted"
    · rw [if_pos hs]
      decide
    · rw [if_neg hs]
      decide

theorem C9_witness :
    normalize_text (normalize_text "  Hola\t\tmundo  \r\n\r\n  x  " "manual")
        "manual" =
      normalize_text "  Hola\t\tmundo  \r\n\r\n  x  " "manual" ∧
    normalize_text " \t \n  " "email_pasted" = "" :=
  ⟨C9_normalize_idempotent.1 "  Hola\t\tmundo  \r\n\r\n  x  " "manual" (by decide),
   C9_normalize_idempotent.2 " \t \n  " "email_pasted" (by decide)⟩

end NSB
